import Mathlib

/-!
Verification of the candidate-discovery and publish pipeline of
auto_fb_post.py (Auto Facebook Poster).

The Python source is shallowly embedded: pure string manipulation is
translated directly; network calls, the date parser and the publish call
are abstracted as explicit oracle arguments (a network fetch that can
fail becomes an Option argument, the date parser becomes a function
String to Option Int returning none where the Python parser raises, and
timestamps are modelled as integer seconds).  The per-item loop of
run_once is a fold over the item list with explicit state.
-/

namespace AutoFB

/-- Model of clean_text: collapse whitespace runs to single spaces and
drop leading and trailing whitespace (Python " ".join(txt.split())). -/
def clean_text (txt : String) : String :=
  String.intercalate " " ((txt.split (fun c => c.isWhitespace)).filter (fun s => s ≠ ""))

/-- Characters after the first scheme separator :// of a URL, none when
the URL has no scheme separator. -/
def afterScheme : List Char → Option (List Char)
  | ':' :: '/' :: '/' :: rest => some rest
  | _ :: rest => afterScheme rest
  | [] => none

/-- Characters before the first slash. -/
def takeUntilSlash : List Char → List Char
  | [] => []
  | '/' :: _ => []
  | c :: rest => c :: takeUntilSlash rest

/-- Model of urlparse(url).netloc for absolute URLs: the text between
the scheme separator :// and the next slash; empty when the URL has no
scheme separator. -/
def netloc_of (url : String) : String :=
  match afterScheme url.toList with
  | none => ""
  | some rest => String.mk (takeUntilSlash rest)

/-- Greedy left-to-right removal of every occurrence of the character
sequence www. (the semantics of Python str.replace with an empty
replacement). -/
def removeWww : List Char → List Char
  | 'w' :: 'w' :: 'w' :: '.' :: rest => removeWww rest
  | c :: rest => c :: removeWww rest
  | [] => []

/-- Lowercasing, character by character. -/
def lowerStr (s : String) : String :=
  String.mk (s.toList.map Char.toLower)

/-- Model of host_of: lowercased network location with every occurrence
of the text www. removed (Python str.replace removes all occurrences,
not only a leading one). -/
def host_of (url : String) : String :=
  String.mk (removeWww (lowerStr (netloc_of url)).toList)

/-- Model of Python str.strip with no argument: drop whitespace from
both ends. -/
def stripStr (s : String) : String :=
  String.mk ((((s.toList.dropWhile Char.isWhitespace).reverse).dropWhile Char.isWhitespace).reverse)

/-- Model of build_caption: title, optional summary block, source line
with host and URL, fixed hashtag suffix, joined with newlines. -/
def build_caption (title summary source_url : String) : String :=
  let host := host_of source_url
  let parts : List String :=
    [stripStr title]
      ++ (if summary ≠ "" then ["\n\nTóm tắt: " ++ stripStr summary] else [])
      ++ ["\nNguồn: " ++ host ++ "\n" ++ source_url, "\n#AI #congnghe"]
  String.intercalate "\n" parts

/-- Test whether the first list is an initial segment of the second. -/
def leadTest : List Char → List Char → Bool
  | [], _ => true
  | _ :: _, [] => false
  | p :: ps, c :: cs => p = c && leadTest ps cs

/-- Test whether the pattern occurs as a contiguous subsequence of the
text (Python operator in on strings). -/
def containsSub (pat : List Char) : List Char → Bool
  | [] => leadTest pat []
  | c :: cs => leadTest pat (c :: cs) || containsSub pat cs

/-- Substring test on strings. -/
def hasSub (s pat : String) : Bool :=
  containsSub pat.toList s.toList

/-- Candidate item as built by gather_candidates_from_source: the dict
with keys title, link, summary, published, source. -/
structure Item where
  title : String
  link : String
  summary : String
  published : String
  source : String
deriving DecidableEq, Repr

/-- Model of parse_dt inside run_once: parse the published field with
dateutil; none models both a raised parse error and the empty string
(both fall back to datetime.min, the value below every real
timestamp, which none represents in the ordering keyLe). -/
def parse_dt (parse : String → Option Int) (it : Item) : Option Int :=
  if it.published = "" then none else parse it.published

/-- Ordering on sort keys: none (datetime.min) is below every parsed
timestamp, parsed timestamps compare as integers. -/
def keyLe : Option Int → Option Int → Bool
  | none, _ => true
  | some _, none => false
  | some a, some b => a ≤ b

/-- Relation used by the sort step: a comes before b when the key of a
is at least the key of b (descending, newest first). -/
def itemGe (parse : String → Option Int) (a b : Item) : Prop :=
  keyLe (parse_dt parse b) (parse_dt parse a) = true

instance (parse : String → Option Int) : DecidableRel (itemGe parse) :=
  fun a b => by unfold itemGe; infer_instance

/-- Model of candidates.sort(key=parse_dt, reverse=True): a stable sort
by parsed published timestamp, newest first.  Modelled with insertion
sort, which is stable, hence has the same input-output behaviour as the
stable Python sort. -/
def sort_candidates (parse : String → Option Int) (l : List Item) : List Item :=
  List.insertionSort (itemGe parse) l

instance (parse : String → Option Int) : IsTotal Item (itemGe parse) := by
  constructor
  intro a b
  unfold itemGe
  rcases parse_dt parse b with _ | x <;> rcases parse_dt parse a with _ | y <;>
    simp [keyLe] <;> omega

instance (parse : String → Option Int) : IsTrans Item (itemGe parse) := by
  constructor
  intro a b c hab hbc
  unfold itemGe at hab hbc ⊢
  rcases hb : parse_dt parse b with _ | y <;> rw [hb] at hab hbc
  · rcases hc : parse_dt parse c with _ | z <;> rw [hc] at hbc
    · simp [keyLe]
    · simp [keyLe] at hbc
  · rcases ha : parse_dt parse a with _ | x <;> rw [ha] at hab
    · simp [keyLe] at hab
    · rcases hc : parse_dt parse c with _ | z <;> rw [hc] at hbc
      · simp [keyLe]
      · simp only [keyLe, decide_eq_true_eq] at hab hbc ⊢
        omega

/-- Model of the dedup loop of run_once: walk the list, skip items with
an empty link, skip items whose link was already seen, keep the rest in
order (dict setdefault plus insertion-ordered values). -/
def dedupByLink : List Item → List String → List Item
  | [], _ => []
  | it :: rest, seen =>
    if it.link = "" then dedupByLink rest seen
    else if it.link ∈ seen then dedupByLink rest seen
    else it :: dedupByLink rest (it.link :: seen)

/-- Merge step of run_once: unique-by-link with first occurrence kept. -/
def mergeByLink (l : List Item) : List Item := dedupByLink l []

/-- Sort-then-merge, the exact order of the two steps in run_once
(the code sorts the accumulated candidates first, then deduplicates). -/
def mergedItems (parse : String → Option Int) (l : List Item) : List Item :=
  mergeByLink (sort_candidates parse l)

/-- Article page as consulted by extract_published_from_html: the four
meta tags tried in order, then the time element (its datetime attribute
or text). -/
structure ArticlePage where
  metaPublishedProp : Option String
  metaPublishedName : Option String
  metaOgPublished : Option String
  metaPubdate : Option String
  timeTag : Option String
deriving DecidableEq, Repr

/-- One meta-tag attempt: present with nonempty content and parseable,
otherwise fall through to the next candidate. -/
def tryMeta (parse : String → Option Int) (content : Option String) : Option Int :=
  match content with
  | none => none
  | some c => if c = "" then none else parse c

/-- Model of extract_published_from_html: try the meta tags in the fixed
priority order of the code, then the time element; each parse failure
falls through; none when nothing is recoverable. -/
def extract_published_from_html (parse : String → Option Int) (pg : ArticlePage) : Option Int :=
  (tryMeta parse pg.metaPublishedProp).orElse fun _ =>
  (tryMeta parse pg.metaPublishedName).orElse fun _ =>
  (tryMeta parse pg.metaOgPublished).orElse fun _ =>
  (tryMeta parse pg.metaPubdate).orElse fun _ =>
  (match pg.timeTag with
   | none => none
   | some t => parse t)

/-- One day in seconds, the timedelta(days=1) bound of within_24h. -/
def SECONDS_PER_DAY : Int := 86400

/-- Model of within_24h: if the published string is nonempty and parses,
answer now - dt less-or-equal one day (no HTML fallback in that case);
otherwise fetch the article page (page = none models a failed fetch) and
apply the same comparison to a recovered timestamp; false when nothing
parses.  Timezone-naive handling is absorbed into the integer model. -/
def within_24h (parse : String → Option Int) (now : Int)
    (published_str : String) (page : Option ArticlePage) : Bool :=
  match (if published_str = "" then none else parse published_str) with
  | some dt => now - dt ≤ SECONDS_PER_DAY
  | none =>
    match page with
    | none => false
    | some pg =>
      match extract_published_from_html parse pg with
      | some dt => now - dt ≤ SECONDS_PER_DAY
      | none => false

/-- State of the module-level UnsplashClient: access key, cached
remaining-calls counter (unknown until the first response), enabled
flag (key nonempty). -/
structure UnsplashClient where
  key : String
  remaining : Option Int
  enabled : Bool
deriving DecidableEq, Repr

/-- Outcome of one Unsplash HTTP request: the X-Ratelimit-Remaining
header if present, whether the status was below 400, whether the JSON
body was well formed down to the result URL, and the list of result
URLs. -/
structure UnsplashResponse where
  remainingHeader : Option String
  statusOk : Bool
  jsonOk : Bool
  results : List String
deriving DecidableEq, Repr

/-- Counter update from the response header, done before the status
check in the code: parse the header as an integer, keep the old value
when the header is absent or unparseable. -/
def updateRemaining (st : UnsplashClient) (r : UnsplashResponse) : UnsplashClient :=
  match r.remainingHeader with
  | none => st
  | some h =>
    match h.toInt? with
    | some n => { st with remaining := some n }
    | none => st

/-- Model of UnsplashClient.search_first.  The response argument is the
network oracle (none models a raised request or connection error).  The
returned Bool records whether the HTTP request was issued.  Every error
path yields none as result, mirroring the catch-all in the code. -/
def search_first (minRemaining : Int) (st : UnsplashClient)
    (resp : Option UnsplashResponse) : Option String × UnsplashClient × Bool :=
  if st.enabled = false then (none, st, false)
  else if (match st.remaining with
           | some r => decide (r < minRemaining)
           | none => false) = true then (none, st, false)
  else
    match resp with
    | none => (none, st, true)
    | some r =>
      let st1 := updateRemaining st r
      if r.statusOk = false then (none, st1, true)
      else if r.jsonOk = false then (none, st1, true)
      else
        match r.results with
        | [] => (none, st1, true)
        | u :: _ => (some u, st1, true)

/-- Raw entry of the HTML listing extractor: title, link, summary as
returned by extract_listing_generic. -/
structure ListingItem where
  title : String
  link : String
  summary : String
deriving DecidableEq, Repr

/-- Keyword test of the gathering code: some keyword occurs as a
substring of the lowercased title-space-summary concatenation. -/
def keyword_match (keywords : List String) (t s : String) : Bool :=
  keywords.any (fun k => hasSub (t ++ " " ++ s) k)

/-- HTML branch of gather_candidates_from_source: take at most 25
listing entries, drop entries with empty link, drop entries failing the
keyword filter when keywords are configured, build the item dict with
empty published field. -/
def gather_html_items (keywords : List String) (src_url : String)
    (lst : List ListingItem) : List Item :=
  (lst.take 25).filterMap (fun it =>
    if it.link = "" then none
    else if !keywords.isEmpty && !keyword_match keywords (lowerStr it.title) (lowerStr it.summary)
      then none
    else some { title := it.title, link := it.link, summary := clean_text it.summary,
                published := "", source := src_url })

/-- Model of gather_candidates_from_source.  The RSS branch is supplied
as an oracle (some items when detect_rss_entries classified the source
as RSS); the HTML listing fetch is an oracle too (none models a raised
fetch error, in which case the accumulated empty list is returned). -/
def gather_candidates_from_source (keywords : List String) (src_url : String)
    (rssItems : Option (List Item)) (htmlListing : Option (List ListingItem)) : List Item :=
  match rssItems with
  | some items => items
  | none =>
    match htmlListing with
    | none => []
    | some lst => gather_html_items keywords src_url lst

/-- Oracles for the per-item phase of run_once: the outcome of the
recency check (within_24h with its network accesses) and of the publish
call (false models a raised FB error) for each item. -/
structure Oracle where
  recent : Item → Bool
  publishOk : Item → Bool

/-- Mutable state of the run_once loop: the posted set (as a duplicate
free list), the per-source counters, the total counter, plus the list
of links successfully published during this run (for the statements). -/
structure RunState where
  posted : List String
  perSource : String → Nat
  postedCount : Nat
  publishedLinks : List String

/-- Set insertion for the posted set. -/
def addPosted (url : String) (posted : List String) : List String :=
  if url ∈ posted then posted else url :: posted

/-- Source key of an item: the source field, or unknown when empty
(Python it.get(source) or unknown). -/
def sourceKey (it : Item) : String :=
  if it.source = "" then "unknown" else it.source

/-- State after a successful publish of item it: record the link, bump
the per-source counter and the total counter. -/
def successState (st : RunState) (it : Item) : RunState :=
  { posted := addPosted it.link st.posted
    perSource := fun s => if s = sourceKey it then st.perSource s + 1 else st.perSource s
    postedCount := st.postedCount + 1
    publishedLinks := st.publishedLinks ++ [it.link] }

/-- One iteration of the run_once loop, guards in source order: the cap
break (modelled as a skip, equivalent since the guard stays true for
the rest of the fold and the state is returned unchanged), empty link,
already posted, per-source cap, recency filter, then the publish
attempt; on publish failure the state is unchanged. -/
def processItem (maxPerSource : Nat) (o : Oracle) (maxPosts : Nat)
    (st : RunState) (it : Item) : RunState :=
  if maxPosts ≤ st.postedCount then st
  else if it.link = "" then st
  else if it.link ∈ st.posted then st
  else if maxPerSource ≤ st.perSource (sourceKey it) then st
  else if o.recent it = false then st
  else if o.publishOk it = true then successState st it
  else st

/-- Initial loop state: the loaded posted set, zero counters. -/
def initState (posted0 : List String) : RunState :=
  { posted := posted0, perSource := fun _ => 0, postedCount := 0, publishedLinks := [] }

/-- The per-item phase of run_once over an already sorted and merged
item list. -/
def run_once (maxPerSource : Nat) (o : Oracle) (maxPosts : Nat)
    (posted0 : List String) (items : List Item) : RunState :=
  items.foldl (processItem maxPerSource o maxPosts) (initState posted0)

/-- Lexicographic order on character lists by code point, the order
used by Python sorted on strings. -/
def charsLe : List Char → List Char → Bool
  | [], _ => true
  | _ :: _, [] => false
  | a :: as, b :: bs => if a = b then charsLe as bs else decide (a < b)

/-- Order on strings by code point. -/
def strLe (a b : String) : Prop :=
  charsLe a.toList b.toList = true

instance : DecidableRel strLe :=
  fun a b => by unfold strLe; infer_instance

/-- Model of save_posted: persist the posted set as a sorted list
(Python json.dump(sorted(list(posted)))); sorting modelled with the
stable insertion sort. -/
def save_posted (posted : List String) : List String :=
  List.insertionSort strLe posted

/-- Date parser used by the concrete examples: two known strings, one
older and one newer, everything else unparseable. -/
def cexParse : String → Option Int :=
  fun s => if s = "old" then some 0 else if s = "new" then some 100 else none

/-- Concrete candidate with the older timestamp, accumulated first. -/
def cexOld : Item :=
  { title := "a", link := "L", summary := "", published := "old", source := "s1" }

/-- Concrete candidate with the newer timestamp and the same link,
accumulated second, from another source. -/
def cexNew : Item :=
  { title := "b", link := "L", summary := "", published := "new", source := "s2" }

/-- Oracle on which every candidate is recent and every publish call
succeeds. -/
def oracleYes : Oracle :=
  { recent := fun _ => true, publishOk := fun _ => true }

/-- Oracle on which every candidate is recent and the publish call
fails exactly on the link F. -/
def oracleMixed : Oracle :=
  { recent := fun _ => true, publishOk := fun it => it.link != "F" }

/-- Concrete candidate items for the run_once examples. -/
def demoItemA : Item :=
  { title := "t", link := "A", summary := "", published := "", source := "s" }

/-- Second concrete candidate from the same source. -/
def demoItemB : Item :=
  { title := "u", link := "B", summary := "", published := "", source := "s" }

/-- Concrete candidate whose publish call fails under oracleMixed. -/
def demoItemF : Item :=
  { title := "v", link := "F", summary := "", published := "", source := "s" }

/-- Concrete candidate carrying a full URL as link. -/
def demoItemUrl : Item :=
  { title := "t", link := "https://example.com/a", summary := "", published := "", source := "s" }

/-- Date parser for the recency examples: one timestamp one hour before
the reference instant 100000, one far older, everything else
unparseable. -/
def cexTimeParse : String → Option Int :=
  fun s => if s = "recent" then some 96400 else if s = "older" then some 1 else none

/-- Article page with no meta timestamp and no time element. -/
def emptyPage : ArticlePage :=
  { metaPublishedProp := none, metaPublishedName := none, metaOgPublished := none,
    metaPubdate := none, timeTag := none }

/-- Enabled Unsplash client whose remaining counter is still unknown. -/
def cexClientFresh : UnsplashClient :=
  { key := "k", remaining := none, enabled := true }

/-- Enabled Unsplash client whose cached remaining counter is 2. -/
def cexClientLow : UnsplashClient :=
  { key := "k", remaining := some 2, enabled := true }

/-! Helper lemmas shared by the claim theorems. -/

/-- Fold invariance: a property preserved by every step of a left fold
holds of the final state. -/
theorem foldl_inv {α β : Type} (f : β → α → β) (P : β → Prop)
    (step : ∀ b a, P b → P (f b a)) : ∀ (l : List α) (b : β), P b → P (l.foldl f b)
  | [], _, h => h
  | a :: l, b, h => foldl_inv f P step l (f b a) (step b a h)

/-- Case analysis on one loop iteration: either some guard fired (or
the publish call failed) and the state is unchanged, or every guard
passed, the publish call succeeded, and the state is the success
state. -/
theorem processItem_cases (m : Nat) (o : Oracle) (mp : Nat) (st : RunState) (it : Item) :
    processItem m o mp st it = st ∨
    (st.postedCount < mp ∧ it.link ≠ "" ∧ it.link ∉ st.posted ∧
      st.perSource (sourceKey it) < m ∧ o.publishOk it = true ∧
      processItem m o mp st it = successState st it) := by
  unfold processItem
  by_cases h1 : mp ≤ st.postedCount
  · rw [if_pos h1]; exact Or.inl rfl
  rw [if_neg h1]
  by_cases h2 : it.link = ""
  · rw [if_pos h2]; exact Or.inl rfl
  rw [if_neg h2]
  by_cases h3 : it.link ∈ st.posted
  · rw [if_pos h3]; exact Or.inl rfl
  rw [if_neg h3]
  by_cases h4 : m ≤ st.perSource (sourceKey it)
  · rw [if_pos h4]; exact Or.inl rfl
  rw [if_neg h4]
  by_cases h5 : o.recent it = false
  · rw [if_pos h5]; exact Or.inl rfl
  rw [if_neg h5]
  by_cases h6 : o.publishOk it = true
  · rw [if_pos h6]
    exact Or.inr ⟨Nat.lt_of_not_le h1, h2, h3, Nat.lt_of_not_le h4, h6, rfl⟩
  · rw [if_neg h6]; exact Or.inl rfl

/-- On publish failure one iteration leaves the state unchanged. -/
theorem processItem_fail_eq (m : Nat) (o : Oracle) (mp : Nat) (st : RunState) (it : Item)
    (hfail : o.publishOk it = false) : processItem m o mp st it = st := by
  rcases processItem_cases m o mp st it with h | ⟨_, _, _, _, hok, _⟩
  · exact h
  · rw [hfail] at hok; exact Bool.noConfusion hok

/-- Set insertion preserves membership. -/
theorem mem_addPosted_of_mem {x u : String} {p : List String} (h : x ∈ p) :
    x ∈ addPosted u p := by
  unfold addPosted
  split
  · exact h
  · exact List.mem_cons_of_mem _ h

/-- The inserted element is a member. -/
theorem self_mem_addPosted (u : String) (p : List String) : u ∈ addPosted u p := by
  unfold addPosted
  split
  · assumption
  · exact List.mem_cons_self _ _

/-- Membership after set insertion. -/
theorem mem_addPosted_iff {x u : String} {p : List String} :
    x ∈ addPosted u p ↔ x = u ∨ x ∈ p := by
  unfold addPosted
  split
  · rename_i hu
    constructor
    · exact Or.inr
    · rintro (rfl | hx)
      · exact hu
      · exact hx
  · exact List.mem_cons

/-- Any link present in the posted set at the start of the run stays in
the posted set and is never among the links published by the run. -/
theorem run_once_skips_posted (m : Nat) (o : Oracle) (mp : Nat) (posted0 : List String)
    (items : List Item) (L : String) (hL : L ∈ posted0) :
    L ∈ (run_once m o mp posted0 items).posted ∧
    L ∉ (run_once m o mp posted0 items).publishedLinks := by
  refine foldl_inv (processItem m o mp)
    (fun st => L ∈ st.posted ∧ L ∉ st.publishedLinks) ?_ items (initState posted0)
    ⟨hL, by simp [initState]⟩
  intro st it h
  rcases processItem_cases m o mp st it with he | ⟨_, _, hnot, _, _, he⟩
  · rw [he]; exact h
  · rw [he]
    refine ⟨mem_addPosted_of_mem h.1, ?_⟩
    intro hmem
    dsimp [successState] at hmem
    rcases List.mem_append.mp hmem with h1 | h1
    · exact h.2 h1
    · rcases List.mem_singleton.mp h1 with rfl
      exact hnot h.1

/-- Every link published by the run ends up in the final posted set. -/
theorem run_once_published_sub_posted (m : Nat) (o : Oracle) (mp : Nat)
    (posted0 : List String) (items : List Item) :
    ∀ x, x ∈ (run_once m o mp posted0 items).publishedLinks →
      x ∈ (run_once m o mp posted0 items).posted := by
  refine foldl_inv (processItem m o mp)
    (fun st => ∀ x, x ∈ st.publishedLinks → x ∈ st.posted) ?_ items (initState posted0) ?_
  · intro st it h x hx
    rcases processItem_cases m o mp st it with he | ⟨_, _, _, _, _, he⟩
    · rw [he] at hx ⊢; exact h x hx
    · rw [he] at hx ⊢
      dsimp [successState] at hx ⊢
      rcases List.mem_append.mp hx with h1 | h1
      · exact mem_addPosted_of_mem (h x h1)
      · rcases List.mem_singleton.mp h1 with rfl
        exact self_mem_addPosted _ _
  · intro x hx
    simp [initState] at hx

/-- C1: a link present in the dedup store at the start of run_once is
never published by that run, and a second run over the same candidate
set, starting from the store produced by the first run, publishes no
link that the first run published (for any oracles and caps of the
second run). -/
theorem C1_dedupe_idempotent (m : Nat) (o o2 : Oracle) (mp mp2 : Nat)
    (posted0 : List String) (items : List Item) (L L2 : String)
    (hL : L ∈ posted0)
    (hL2 : L2 ∈ (run_once m o mp posted0 items).publishedLinks) :
    L ∉ (run_once m o mp posted0 items).publishedLinks ∧
    L2 ∉ (run_once m o2 mp2 (run_once m o mp posted0 items).posted items).publishedLinks := by
  refine ⟨(run_once_skips_posted m o mp posted0 items L hL).2, ?_⟩
  exact (run_once_skips_posted m o2 mp2 (run_once m o mp posted0 items).posted items L2
    (run_once_published_sub_posted m o mp posted0 items L2 hL2)).2

/-- Witness for C1 on a concrete run: P is already posted, the run
publishes A; P is never published, and a second run from the resulting
store does not publish A again. -/
theorem C1_dedupe_idempotent_witness :
    "P" ∈ ["P"] ∧
    "A" ∈ (run_once 2 oracleYes 3 ["P"] [demoItemA]).publishedLinks ∧
    "P" ∉ (run_once 2 oracleYes 3 ["P"] [demoItemA]).publishedLinks ∧
    "A" ∉ (run_once 2 oracleYes 3
      (run_once 2 oracleYes 3 ["P"] [demoItemA]).posted [demoItemA]).publishedLinks :=
  ⟨by decide, by decide,
   (C1_dedupe_idempotent 2 oracleYes oracleYes 3 3 ["P"] [demoItemA] "P" "A"
      (by decide) (by decide)).1,
   (C1_dedupe_idempotent 2 oracleYes oracleYes 3 3 ["P"] [demoItemA] "P" "A"
      (by decide) (by decide)).2⟩

/-- C2: after processing any prefix of the item list, every per-source
counter is at most the per-source cap and the total counter is at most
the per-run cap; moreover one iteration on an item whose publish call
fails leaves both counters unchanged, so the counters grow only on
publish success. -/
theorem C2_caps (m : Nat) (o : Oracle) (mp : Nat) (posted0 : List String)
    (items : List Item) (k : Nat) (s : String) (st : RunState) (it : Item)
    (hfail : o.publishOk it = false) :
    (run_once m o mp posted0 (items.take k)).perSource s ≤ m ∧
    (run_once m o mp posted0 (items.take k)).postedCount ≤ mp ∧
    (processItem m o mp st it).postedCount = st.postedCount ∧
    (processItem m o mp st it).perSource = st.perSource := by
  have hf := processItem_fail_eq m o mp st it hfail
  have hinv := foldl_inv (processItem m o mp)
    (fun st2 => (∀ s2, st2.perSource s2 ≤ m) ∧ st2.postedCount ≤ mp) ?_
    (items.take k) (initState posted0) ⟨fun _ => Nat.zero_le m, Nat.zero_le mp⟩
  · exact ⟨hinv.1 s, hinv.2, by rw [hf], by rw [hf]⟩
  · intro st2 it2 h2
    rcases processItem_cases m o mp st2 it2 with he | ⟨hcnt, _, _, hsrc, _, he⟩
    · rw [he]; exact h2
    · rw [he]
      refine ⟨fun s2 => ?_, hcnt⟩
      dsimp [successState]
      split
      · rename_i hs2
        rw [hs2]
        exact hsrc
      · exact h2.1 s2

/-- Witness for C2 on a concrete run with per-source cap 1 and run cap
1, with a publish failure on item F. -/
theorem C2_caps_witness :
    oracleMixed.publishOk demoItemF = false ∧
    (run_once 1 oracleMixed 1 [] ([demoItemA, demoItemF, demoItemB].take 3)).perSource "s" ≤ 1 ∧
    (run_once 1 oracleMixed 1 [] ([demoItemA, demoItemF, demoItemB].take 3)).postedCount ≤ 1 ∧
    (processItem 1 oracleMixed 1 (initState []) demoItemF).postedCount =
      (initState ([] : List String)).postedCount :=
  have h := C2_caps 1 oracleMixed 1 [] [demoItemA, demoItemF, demoItemB] 3 "s"
    (initState []) demoItemF (by decide)
  ⟨by decide, h.1, h.2.1, h.2.2.1⟩

/-- C3: when the publish call for a candidate fails, the iteration for
that candidate leaves the whole loop state unchanged (posted set,
per-source counters, total counter, published list), and the fold
continues with the next candidate from that same state. -/
theorem C3_publish_failure_preserves_state (m : Nat) (o : Oracle) (mp : Nat)
    (st : RunState) (it : Item) (rest : List Item)
    (hfail : o.publishOk it = false) :
    processItem m o mp st it = st ∧
    (processItem m o mp st it).posted = st.posted ∧
    (processItem m o mp st it).perSource = st.perSource ∧
    (processItem m o mp st it).postedCount = st.postedCount ∧
    (processItem m o mp st it).publishedLinks = st.publishedLinks ∧
    (it :: rest).foldl (processItem m o mp) st = rest.foldl (processItem m o mp) st := by
  have h := processItem_fail_eq m o mp st it hfail
  exact ⟨h, by rw [h], by rw [h], by rw [h], by rw [h], by rw [List.foldl_cons, h]⟩

/-- Witness for C3: concrete failing publish on item F. -/
theorem C3_publish_failure_preserves_state_witness :
    oracleMixed.publishOk demoItemF = false ∧
    processItem 2 oracleMixed 3 (initState ["X"]) demoItemF = initState ["X"] ∧
    ([demoItemF, demoItemA].foldl (processItem 2 oracleMixed 3) (initState ["X"]) =
      [demoItemA].foldl (processItem 2 oracleMixed 3) (initState ["X"])) :=
  have h := C3_publish_failure_preserves_state 2 oracleMixed 3 (initState ["X"])
    demoItemF [demoItemA] (by decide)
  ⟨by decide, h.1, h.2.2.2.2.2⟩

/-- C9 counterexample: on a concrete successful publish the value
recorded in the posted set and persisted by save_posted is the raw link
text itself, not a hash of it: the stored entry is byte-for-byte the
link. -/
theorem C9_counterexample_raw_link_stored :
    (run_once 2 oracleYes 3 [] [demoItemUrl]).posted = ["https://example.com/a"] ∧
    save_posted (run_once 2 oracleYes 3 [] [demoItemUrl]).posted = ["https://example.com/a"] ∧
    "https://example.com/a" ∈ (run_once 2 oracleYes 3 [] [demoItemUrl]).posted :=
  ⟨by decide, by decide, by decide⟩

/-- C9 amended: the identity key of the dedup store is the raw link
string itself: a link is in the final posted set exactly when it was
loaded from the store or successfully published during the run, and
save_posted persists exactly the members of the posted set (as a
sorted list). -/
theorem C9_amended_raw_link_key (m : Nat) (o : Oracle) (mp : Nat) (posted0 : List String)
    (items : List Item) (L : String) :
    (L ∈ (run_once m o mp posted0 items).posted ↔
      L ∈ posted0 ∨ L ∈ (run_once m o mp posted0 items).publishedLinks) ∧
    (L ∈ save_posted (run_once m o mp posted0 items).posted ↔
      L ∈ (run_once m o mp posted0 items).posted) := by
  constructor
  · refine (foldl_inv (processItem m o mp)
      (fun st => ∀ x, x ∈ st.posted ↔ x ∈ posted0 ∨ x ∈ st.publishedLinks) ?_ items
      (initState posted0) ?_) L
    · intro st it h x
      rcases processItem_cases m o mp st it with he | ⟨_, _, _, _, _, he⟩
      · rw [he]; exact h x
      · rw [he]
        dsimp [successState]
        rw [mem_addPosted_iff, h x, List.mem_append, List.mem_singleton]
        tauto
    · intro x
      simp [initState]
  · exact (List.perm_insertionSort strLe _).mem_iff

/-- Every element of the dedup output came from the input, has a
nonempty link, and its link is not in the initial seen set. -/
theorem mem_dedupByLink : ∀ (l : List Item) (seen : List String) (x : Item),
    x ∈ dedupByLink l seen → x ∈ l ∧ x.link ≠ "" ∧ x.link ∉ seen := by
  intro l
  induction l with
  | nil => intro seen x hx; cases hx
  | cons it rest ih =>
    intro seen x hx
    unfold dedupByLink at hx
    by_cases h1 : it.link = ""
    · rw [if_pos h1] at hx
      obtain ⟨hmem, hne, hns⟩ := ih seen x hx
      exact ⟨List.mem_cons_of_mem _ hmem, hne, hns⟩
    rw [if_neg h1] at hx
    by_cases h2 : it.link ∈ seen
    · rw [if_pos h2] at hx
      obtain ⟨hmem, hne, hns⟩ := ih seen x hx
      exact ⟨List.mem_cons_of_mem _ hmem, hne, hns⟩
    rw [if_neg h2] at hx
    rcases List.mem_cons.mp hx with rfl | hx2
    · exact ⟨List.mem_cons_self _ _, h1, h2⟩
    · obtain ⟨hmem, hne, hns⟩ := ih _ x hx2
      refine ⟨List.mem_cons_of_mem _ hmem, hne, fun hcon => ?_⟩
      exact hns (List.mem_cons_of_mem _ hcon)

/-- The dedup output is unique by link. -/
theorem pairwise_dedupByLink : ∀ (l : List Item) (seen : List String),
    (dedupByLink l seen).Pairwise (fun a b => a.link ≠ b.link) := by
  intro l
  induction l with
  | nil => intro seen; exact List.Pairwise.nil
  | cons it rest ih =>
    intro seen
    unfold dedupByLink
    by_cases h1 : it.link = ""
    · rw [if_pos h1]; exact ih seen
    rw [if_neg h1]
    by_cases h2 : it.link ∈ seen
    · rw [if_pos h2]; exact ih seen
    rw [if_neg h2]
    refine List.Pairwise.cons (fun b hb hcon => ?_) (ih _)
    have hprops := mem_dedupByLink rest (it.link :: seen) b hb
    exact hprops.2.2 (by rw [← hcon]; exact List.mem_cons_self _ _)

/-- Each surviving item is the first element of the input with its
link: the merge is first-seen-wins over its input order. -/
theorem find_dedupByLink : ∀ (l : List Item) (seen : List String) (x : Item),
    x ∈ dedupByLink l seen → l.find? (fun z => z.link == x.link) = some x := by
  intro l
  induction l with
  | nil => intro seen x hx; cases hx
  | cons it rest ih =>
    intro seen x hx
    unfold dedupByLink at hx
    by_cases h1 : it.link = ""
    · rw [if_pos h1] at hx
      have hxne : x.link ≠ "" := (mem_dedupByLink rest seen x hx).2.1
      have hne2 : ¬(it.link == x.link) = true :=
        fun hcon => hxne ((beq_iff_eq.mp hcon).symm.trans h1)
      rw [@List.find?_cons_of_neg Item (fun z => z.link == x.link) it rest hne2]
      exact ih seen x hx
    rw [if_neg h1] at hx
    by_cases h2 : it.link ∈ seen
    · rw [if_pos h2] at hx
      have hxns : x.link ∉ seen := (mem_dedupByLink rest seen x hx).2.2
      have hne2 : ¬(it.link == x.link) = true :=
        fun hcon => hxns ((beq_iff_eq.mp hcon) ▸ h2)
      rw [@List.find?_cons_of_neg Item (fun z => z.link == x.link) it rest hne2]
      exact ih seen x hx
    rw [if_neg h2] at hx
    rcases List.mem_cons.mp hx with rfl | hx2
    · exact List.find?_cons_of_pos _ (by simp)
    · have hxns : x.link ∉ it.link :: seen := (mem_dedupByLink rest _ x hx2).2.2
      have hne2 : ¬(it.link == x.link) = true :=
        fun hcon => hxns (List.mem_cons.mpr (Or.inl (beq_iff_eq.mp hcon).symm))
      rw [@List.find?_cons_of_neg Item (fun z => z.link == x.link) it rest hne2]
      exact ih _ x hx2

/-- Every input element with a nonempty, unseen link is represented in
the dedup output by an item with the same link. -/
theorem cover_dedupByLink : ∀ (l : List Item) (seen : List String) (y : Item),
    y ∈ l → y.link ≠ "" → y.link ∉ seen →
    ∃ x, x ∈ dedupByLink l seen ∧ x.link = y.link := by
  intro l
  induction l with
  | nil => intro seen y hy; cases hy
  | cons it rest ih =>
    intro seen y hy hne hns
    unfold dedupByLink
    by_cases h1 : it.link = ""
    · rw [if_pos h1]
      rcases List.mem_cons.mp hy with rfl | hy2
      · exact absurd h1 hne
      · exact ih seen y hy2 hne hns
    rw [if_neg h1]
    by_cases h2 : it.link ∈ seen
    · rw [if_pos h2]
      rcases List.mem_cons.mp hy with rfl | hy2
      · exact absurd h2 hns
      · exact ih seen y hy2 hne hns
    rw [if_neg h2]
    by_cases h3 : y.link = it.link
    · exact ⟨it, List.mem_cons_self _ _, h3.symm⟩
    · rcases List.mem_cons.mp hy with rfl | hy2
      · exact absurd rfl h3
      · obtain ⟨x, hx1, hx2⟩ := ih (it.link :: seen) y hy2 hne (fun hcon =>
          (List.mem_cons.mp hcon).elim h3 hns)
        exact ⟨x, List.mem_cons_of_mem _ hx1, hx2⟩

/-- C4 counterexample: two candidates share the link L; the one
accumulated first (cexOld) has the older timestamp, so after the sort
step the later-accumulated cexNew comes first and is the one that
survives the merge — the claim, which says the first-seen in
accumulation order survives, fails here. -/
theorem C4_counterexample_sorted_order_wins :
    mergedItems cexParse [cexOld, cexNew] = [cexNew] ∧
    cexNew ≠ cexOld ∧ cexOld.link = cexNew.link :=
  ⟨by decide, by decide, by decide⟩

/-- C4 amended: the merge step produces a list unique by link in which,
for any duplicated link, exactly the first-seen candidate in the sorted
order (published descending, the order the code deduplicates in)
survives, and no candidate with an empty link enters the merged set. -/
theorem C4_amended_first_in_sorted_order_wins (parse : String → Option Int)
    (l : List Item) (y : Item)
    (hy : y ∈ sort_candidates parse l) (hylink : y.link ≠ "") :
    (mergedItems parse l).Pairwise (fun a b => a.link ≠ b.link) ∧
    (∀ it2, it2 ∈ mergedItems parse l → it2.link ≠ "" ∧
      (sort_candidates parse l).find? (fun z => z.link == it2.link) = some it2) ∧
    ∃ x, x ∈ mergedItems parse l ∧ x.link = y.link := by
  refine ⟨pairwise_dedupByLink _ _,
    fun it2 h2 => ⟨(mem_dedupByLink _ _ _ h2).2.1, find_dedupByLink _ _ _ h2⟩, ?_⟩
  exact cover_dedupByLink _ [] y hy hylink (by simp)

/-- Witness for the amended C4 on the concrete duplicated-link pair:
the survivor is the first element of the sorted order with that link. -/
theorem C4_amended_first_in_sorted_order_wins_witness :
    cexNew ∈ sort_candidates cexParse [cexOld, cexNew] ∧ cexNew.link ≠ "" ∧
    (sort_candidates cexParse [cexOld, cexNew]).find?
      (fun z => z.link == cexNew.link) = some cexNew :=
  ⟨by decide, by decide,
   ((C4_amended_first_in_sorted_order_wins cexParse [cexOld, cexNew] cexNew
      (by decide) (by decide)).2.1 cexNew (by decide)).2⟩

/-- C6: the sort step is a total function on candidate lists that
returns a permutation of its input ordered descending by parsed
published timestamp (itemGe), and every item whose published field is
missing or unparseable (parse_dt none, the datetime.min fallback) is
placed after all items with a parseable timestamp. -/
theorem C6_sort_descending_missing_last (parse : String → Option Int) (l : List Item) :
    (sort_candidates parse l).Perm l ∧
    List.Sorted (itemGe parse) (sort_candidates parse l) ∧
    (sort_candidates parse l).Pairwise
      (fun a b => parse_dt parse a = none → parse_dt parse b = none) := by
  refine ⟨List.perm_insertionSort _ l, List.sorted_insertionSort _ l, ?_⟩
  refine List.Pairwise.imp ?_ (List.sorted_insertionSort (itemGe parse) l)
  intro a b hab ha
  unfold itemGe at hab
  rw [ha] at hab
  cases hpd : parse_dt parse b with
  | none => rfl
  | some v => rw [hpd] at hab; simp [keyLe] at hab

/-- C5: a candidate whose published string parses to a timestamp within
the last day of now is accepted; one that parses to more than a day ago
is rejected; one whose published string is empty or unparseable, when
the article page offers no recoverable timestamp (or cannot be
fetched), is rejected — parse failure is a conservative reject. -/
theorem C5_recency_filter (parse : String → Option Int) (now t1 t2 : Int)
    (ps1 ps2 bad : String) (page : Option ArticlePage)
    (h1ne : ps1 ≠ "") (h1p : parse ps1 = some t1)
    (h1a : 0 ≤ now - t1) (h1b : now - t1 ≤ SECONDS_PER_DAY)
    (h2ne : ps2 ≠ "") (h2p : parse ps2 = some t2) (h2old : SECONDS_PER_DAY < now - t2)
    (hbad : bad = "" ∨ parse bad = none)
    (hnohtml : ∀ pg, page = some pg → extract_published_from_html parse pg = none) :
    within_24h parse now ps1 page = true ∧
    within_24h parse now ps2 page = false ∧
    within_24h parse now bad page = false := by
  refine ⟨?_, ?_, ?_⟩
  · unfold within_24h
    rw [if_neg h1ne, h1p]
    exact decide_eq_true h1b
  · unfold within_24h
    rw [if_neg h2ne, h2p]
    exact decide_eq_false (not_le.mpr h2old)
  · unfold within_24h
    have hnone : (if bad = "" then none else parse bad) = (none : Option Int) := by
      rcases hbad with hbe | hbp
      · rw [if_pos hbe]
      · by_cases hbe : bad = ""
        · rw [if_pos hbe]
        · rw [if_neg hbe, hbp]
    rw [hnone]
    cases page with
    | none => rfl
    | some pg =>
      have := hnohtml pg rfl
      dsimp only
      rw [this]

/-- Witness for C5 at the reference instant 100000 with one timestamp
an hour old, one far older, an unparseable string, and a fetched page
carrying no timestamp. -/
theorem C5_recency_filter_witness :
    within_24h cexTimeParse 100000 "recent" (some emptyPage) = true ∧
    within_24h cexTimeParse 100000 "older" (some emptyPage) = false ∧
    within_24h cexTimeParse 100000 "junk" (some emptyPage) = false :=
  C5_recency_filter cexTimeParse 100000 96400 1 "recent" "older" "junk" (some emptyPage)
    (by decide) (by decide) (by decide) (by decide) (by decide) (by decide) (by decide)
    (Or.inr (by decide))
    (fun pg hpg => by rw [← Option.some_inj.mp hpg]; rfl)

/-- C7: with the remaining counter unknown the call is issued (the
first call of a run is always attempted); once the cached counter is
known and below the floor, search_first answers none without issuing
the call and without touching the state; and any provider error (failed
request, non-success status, malformed body, empty result list) yields
the result none instead of an exception. -/
theorem C7_unsplash_quota_guard (minRem : Int) (st1 st2 st3 : UnsplashClient)
    (resp1 resp2 resp3 : Option UnsplashResponse) (r : Int)
    (h1e : st1.enabled = true) (h1r : st1.remaining = none)
    (h2r : st2.remaining = some r) (hlow : r < minRem)
    (herr : resp3 = none ∨ ∃ rr, resp3 = some rr ∧
      (rr.statusOk = false ∨ rr.jsonOk = false ∨ rr.results = [])) :
    (search_first minRem st1 resp1).2.2 = true ∧
    search_first minRem st2 resp2 = (none, st2, false) ∧
    (search_first minRem st3 resp3).1 = none := by
  refine ⟨?_, ?_, ?_⟩
  · unfold search_first
    rw [h1e, h1r]
    rw [if_neg (by simp)]
    rw [if_neg (by simp)]
    cases resp1 with
    | none => rfl
    | some rr =>
      dsimp only
      by_cases hs : rr.statusOk = false
      · rw [if_pos hs]
      · rw [if_neg hs]
        by_cases hj : rr.jsonOk = false
        · rw [if_pos hj]
        · rw [if_neg hj]
          cases rr.results with
          | nil => rfl
          | cons u us => rfl
  · unfold search_first
    by_cases he : st2.enabled = false
    · rw [if_pos he]
    · rw [if_neg he, h2r]
      rw [if_pos (by simpa using hlow)]
  · unfold search_first
    by_cases he : st3.enabled = false
    · rw [if_pos he]
    · rw [if_neg he]
      by_cases hq : (match st3.remaining with
        | some r0 => decide (r0 < minRem)
        | none => false) = true
      · rw [if_pos hq]
      · rw [if_neg hq]
        rcases herr with rfl | ⟨rr, rfl, hcase⟩
        · rfl
        · dsimp only
          by_cases hs : rr.statusOk = false
          · rw [if_pos hs]
          · rw [if_neg hs]
            by_cases hj : rr.jsonOk = false
            · rw [if_pos hj]
            · rw [if_neg hj]
              rcases hcase with hs2 | hj2 | hres
              · exact absurd hs2 hs
              · exact absurd hj2 hj
              · rw [hres]

/-- Witness for C7: a fresh enabled client (counter unknown) attempts
the call even when the request then fails; a client with cached
remaining 2 against floor 5 skips the call; the failed request yields
none. -/
theorem C7_unsplash_quota_guard_witness :
    cexClientFresh.enabled = true ∧ cexClientFresh.remaining = none ∧
    cexClientLow.remaining = some 2 ∧ (2 : Int) < 5 ∧
    (search_first 5 cexClientFresh none).2.2 = true ∧
    search_first 5 cexClientLow none = (none, cexClientLow, false) ∧
    (search_first 5 cexClientFresh none).1 = none :=
  have h := C7_unsplash_quota_guard 5 cexClientFresh cexClientLow cexClientFresh
    none none none 2 rfl rfl rfl (by decide) (Or.inl rfl)
  ⟨rfl, rfl, rfl, by decide, h.1, h.2.1, h.2.2⟩

/-- C8: build_caption is a pure function whose value on the inputs
Title, Sum, https://www.example.com/a is the fixed string below
(byte-for-byte identical on every call), and that string contains the
title, the summary, the hostname with www. stripped, the literal source
URL, and the fixed hashtag suffix. -/
theorem C8_caption_deterministic :
    build_caption "Title" "Sum" "https://www.example.com/a" =
      "Title\n\n\nTóm tắt: Sum\n\nNguồn: example.com\nhttps://www.example.com/a\n\n#AI #congnghe" ∧
    hasSub (build_caption "Title" "Sum" "https://www.example.com/a") "Title" = true ∧
    hasSub (build_caption "Title" "Sum" "https://www.example.com/a") "Sum" = true ∧
    hasSub (build_caption "Title" "Sum" "https://www.example.com/a") "example.com" = true ∧
    hasSub (build_caption "Title" "Sum" "https://www.example.com/a")
      "https://www.example.com/a" = true ∧
    hasSub (build_caption "Title" "Sum" "https://www.example.com/a") "#AI #congnghe" = true :=
  ⟨by decide, by decide, by decide, by decide, by decide, by decide⟩

/-- C10: when a source is not classified as RSS (the RSS oracle is
none) and the listing page fetch succeeds, the gathered candidate list
has at most 25 items, whatever the listing contains. -/
theorem C10_html_listing_cap (keywords : List String) (src_url : String)
    (lst : List ListingItem) :
    (gather_candidates_from_source keywords src_url none (some lst)).length ≤ 25 := by
  show (gather_html_items keywords src_url lst).length ≤ 25
  unfold gather_html_items
  refine le_trans (List.length_filterMap_le _ _) ?_
  rw [List.length_take]
  exact min_le_left _ _

end AutoFB
